import Mathlib

/-!
Verification of the `TraderId` identifier core
(`src/nautilus_core/model/src/identifiers/trader_id.rs`).

The source file defines a validated, interned identifier type `TraderId`
wrapping a `Ustr` interned-string handle, a validating constructor
`TraderId::new`, a `Default` instance with text `"TRADER-000"`, `Debug` and
`Display` renderings, and two C entry points `trader_id_new` (raw pointer,
aborts on any failure) and `trader_id_hash` (cached hash of the text).

Strings are modelled as `List Char` (Rust `&str` is a sequence of Unicode
scalar values; `Char` in Lean is exactly a Unicode scalar value), and the
byte view needed for byte-for-byte equality and byte-lexicographic ordering
is obtained through an explicit UTF-8 encoder.

Code external to the repository slice (the `correctness` validators, the
`ustr` crate, the C string decoding) is modelled from the spec; each such
definition carries a doc comment starting `Modelled from the spec:`.
-/

/-- Modelled from the spec: the "whitespace-like characters" used by the
Validator's empty/whitespace check (missing `nautilus_core::correctness`).
This is the Unicode White_Space set, i.e. Rust's `char::is_whitespace`. -/
def isRustWhitespace (c : Char) : Bool :=
  let v := c.toNat
  v = 9 || v = 10 || v = 11 || v = 12 || v = 13 || v = 32 || v = 133 ||
  v = 160 || v = 5760 || (8192 ≤ v && v ≤ 8202) || v = 8232 || v = 8233 ||
  v = 8239 || v = 8287 || v = 12288

/-- Reason carried by a validation failure: either the empty/whitespace rule
or the missing-substring rule was violated. -/
inductive FailReason where
  | emptyOrWhitespace : FailReason
  | missingSubstring : List Char → FailReason
deriving DecidableEq

/-- The single error kind of the core: a validation failure naming the
offending field and the violated rule. -/
structure InvalidValue where
  fieldName : List Char
  reason : FailReason
deriving DecidableEq

/-- Checks that the first list is an initial segment of the second. -/
def leadsWith : List Char → List Char → Bool
  | [], _ => true
  | _ :: _, [] => false
  | a :: as, b :: bs => if a = b then leadsWith as bs else false

/-- Substring search: `containsSub needle hay` is true when `needle`
occurs contiguously inside `hay` (Rust `str::contains` with a literal). -/
def containsSub (needle : List Char) : List Char → Bool
  | [] => leadsWith needle []
  | h :: t => leadsWith needle (h :: t) || containsSub needle t

/-- Modelled from the spec: `correctness::valid_string` (missing
`nautilus_core::correctness`): fails with `InvalidValue` when the candidate
is empty or contains only whitespace-like characters; the field name is
embedded in the error for diagnostics only. -/
def valid_string (s : List Char) (fieldName : List Char) :
    Except InvalidValue Unit :=
  if s.isEmpty || s.all isRustWhitespace then
    .error ⟨fieldName, .emptyOrWhitespace⟩
  else
    .ok ()

/-- Modelled from the spec: `correctness::string_contains` (missing
`nautilus_core::correctness`): fails with `InvalidValue` when the needle is
not present anywhere in the candidate. -/
def string_contains (s : List Char) (needle : List Char)
    (fieldName : List Char) : Except InvalidValue Unit :=
  if containsSub needle s then .ok ()
  else .error ⟨fieldName, .missingSubstring needle⟩

/-- Modelled from the spec: a `Ustr` handle of the Interning Store (missing
`ustr` crate). The store deduplicates text, so a handle is determined by its
underlying text; equality of handles coincides with equality of their texts,
which the derived structure equality captures. -/
structure Ustr where
  text : List Char
deriving DecidableEq

/-- Modelled from the spec: `Ustr::from`, interning text and returning the
handle determined by it. -/
def Ustr.fromText (s : List Char) : Ustr := ⟨s⟩

/-- UTF-8 encoding of one Unicode scalar value, as a list of byte values. -/
def utf8EncodeChar (c : Char) : List Nat :=
  let v := c.toNat
  if v < 128 then [v]
  else if v < 2048 then [192 + v / 64, 128 + v % 64]
  else if v < 65536 then [224 + v / 4096, 128 + v / 64 % 64, 128 + v % 64]
  else [240 + v / 262144, 128 + v / 4096 % 64, 128 + v / 64 % 64, 128 + v % 64]

/-- UTF-8 byte sequence of a text: the byte-for-byte view of a Rust `&str`. -/
def utf8Bytes : List Char → List Nat
  | [] => []
  | c :: cs => utf8EncodeChar c ++ utf8Bytes cs

/-- Reads one UTF-8-encoded scalar value off the front of a byte list,
returning the value and the remaining bytes (a left inverse of
`utf8EncodeChar`, used to prove the encoding injective). -/
def readFirst : List Nat → Nat × List Nat
  | [] => (0, [])
  | b :: bs =>
    if b < 128 then (b, bs)
    else if b < 224 then
      match bs with
      | b2 :: rest => ((b - 192) * 64 + (b2 - 128), rest)
      | [] => (0, [])
    else if b < 240 then
      match bs with
      | b2 :: b3 :: rest =>
        ((b - 224) * 4096 + (b2 - 128) * 64 + (b3 - 128), rest)
      | _ => (0, [])
    else
      match bs with
      | b2 :: b3 :: b4 :: rest =>
        ((b - 240) * 262144 + (b2 - 128) * 4096 + (b3 - 128) * 64 +
          (b4 - 128), rest)
      | _ => (0, [])

/-- Byte-lexicographic strict comparison of byte lists: the ordering Rust
uses for `&str` (and hence `Ustr`) comparison. A strict prefix sorts first. -/
def bytesLt : List Nat → List Nat → Bool
  | _, [] => false
  | [], _ :: _ => true
  | a :: as, b :: bs =>
    if a < b then true else if b < a then false else bytesLt as bs

/-- FNV-1a accumulation over a byte list, 64-bit arithmetic made explicit
with `% 2 ^ 64`. -/
def fnv1a64 : List Nat → Nat → Nat
  | [], h => h
  | b :: bs, h =>
    fnv1a64 bs (((h ^^^ (b % 256)) * 1099511628211) % 18446744073709551616)

/-- Modelled from the spec: `Ustr::precomputed_hash` (missing `ustr` crate):
the cached 64-bit hash of the interned text, a deterministic pure function
of the text alone. -/
def Ustr.precomputed_hash (u : Ustr) : Nat :=
  fnv1a64 (utf8Bytes u.text) 14695981039346656037

/-- The field name the source passes to both validators. -/
def traderFieldName : List Char := ("`TraderId` value").toList

/-- The identifier type: an immutable value wrapping an interned-string
handle (source struct `TraderId`). -/
structure TraderId where
  value : Ustr
deriving DecidableEq

/-- The validating constructor `TraderId::new`: `valid_string`, then
`string_contains` with needle `"-"`, then intern and wrap; each `?` in the
source is an explicit early return of the failure. -/
def TraderId.new (s : List Char) : Except InvalidValue TraderId :=
  match valid_string s traderFieldName with
  | .error e => .error e
  | .ok _ =>
    match string_contains s ['-'] traderFieldName with
    | .error e => .error e
    | .ok _ => .ok ⟨Ustr.fromText s⟩

/-- The `Default` instance: directly constructs the identifier with text
`"TRADER-000"`, with no validation call. -/
def TraderId.default : TraderId :=
  ⟨Ustr.fromText (("TRADER-000").toList)⟩

/-- The `Display` rendering: exactly the underlying text. -/
def TraderId.display (id : TraderId) : List Char := id.value.text

/-- The `Debug` rendering: the source delegates to `Ustr`'s debug form,
which per the spec (missing `ustr` crate, modelled from the spec) is the
plain text enclosed in double quotes. -/
def TraderId.debugRender (id : TraderId) : List Char :=
  '"' :: id.value.text ++ ['"']

/-- The byte-for-byte view of an identifier's underlying text. -/
def TraderId.bytes (id : TraderId) : List Nat := utf8Bytes id.value.text

/-- The derived `Ord` on `TraderId`: delegates to the handle's canonical
comparison, i.e. byte-lexicographic order on the text (modelled from the
spec for the missing `ustr` crate). -/
def TraderId.lt (a b : TraderId) : Bool := bytesLt a.bytes b.bytes

/-- The C entry point `trader_id_hash`: returns the handle's cached hash. -/
def trader_id_hash (id : TraderId) : Nat := id.value.precomputed_hash

/-- Modelled from the spec: the possible states of the raw C string pointer
handed to the foreign entry point — null, non-UTF-8 contents, or a
null-terminated buffer holding a UTF-8 text. -/
inductive CStrView where
  | nullPtr : CStrView
  | invalidUtf8 : CStrView
  | utf8 : List Char → CStrView
deriving DecidableEq

/-- Outcome of a foreign-boundary call: either a process-level abort
(`assert!`/`expect`/`unwrap` failure) or a returned value. There is no
returned-error constructor: the boundary has none. -/
inductive FfiOutcome (α : Type) where
  | abort : FfiOutcome α
  | ret : α → FfiOutcome α
deriving DecidableEq

/-- The C entry point `trader_id_new`: asserts the pointer is non-null,
decodes the buffer as UTF-8 (`expect` aborts on failure), and unwraps
`TraderId::new` (aborting on validation failure). -/
def trader_id_new : CStrView → FfiOutcome TraderId
  | .nullPtr => .abort
  | .invalidUtf8 => .abort
  | .utf8 s =>
    match TraderId.new s with
    | .ok id => .ret id
    | .error _ => .abort

/-- Modelled from the spec: the Interning Store, a process-wide deduplicating
table of texts with append-only insertion. -/
structure InternStore where
  table : List (List Char)
deriving DecidableEq

/-- Modelled from the spec: `intern(text) -> handle` — returns the handle
determined by the text, appending the text to the table when new. -/
def InternStore.intern (st : InternStore) (s : List Char) :
    Ustr × InternStore :=
  if s ∈ st.table then (⟨s⟩, st) else (⟨s⟩, ⟨st.table ++ [s]⟩)

/-- `TraderId::new` with the Interning Store state made explicit: runs both
validators and only then interns; a validation failure is returned before
the store is touched, exactly as the source's `?` operators sequence it. -/
def TraderId.newWithStore (s : List Char) (st : InternStore) :
    Except InvalidValue (TraderId × InternStore) :=
  match valid_string s traderFieldName with
  | .error e => .error e
  | .ok _ =>
    match string_contains s ['-'] traderFieldName with
    | .error e => .error e
    | .ok _ => .ok (⟨(st.intern s).1⟩, (st.intern s).2)

/-- A concrete identifier for witnesses: text `"TRADER-000"`. -/
def tid000 : TraderId := ⟨Ustr.fromText (("TRADER-000").toList)⟩

/-- A concrete identifier for witnesses: text `"TRADER-001"`. -/
def tid001 : TraderId := ⟨Ustr.fromText (("TRADER-001").toList)⟩

/-- A concrete identifier for witnesses: text `"TRADER-002"`. -/
def tid002 : TraderId := ⟨Ustr.fromText (("TRADER-002").toList)⟩

/-- Characters with equal scalar values are equal. -/
theorem char_toNat_inj (a b : Char) (h : a.toNat = b.toNat) : a = b := by
  cases a with
  | mk va ha =>
    cases b with
    | mk vb hb =>
      simp only [Char.toNat] at h
      congr 1
      cases va
      cases vb
      simp only [UInt32.toNat] at h
      congr 1
      exact BitVec.eq_of_toNat_eq h

/-- The UTF-8 encoding of a character is never empty. -/
theorem utf8EncodeChar_ne_nil (c : Char) : utf8EncodeChar c ≠ [] := by
  simp only [utf8EncodeChar]
  split_ifs <;> simp

set_option maxRecDepth 4096 in
/-- Reading one scalar value off an encoded character recovers the value and
the rest of the bytes. -/
theorem readFirst_utf8EncodeChar (c : Char) (r : List Nat) :
    readFirst (utf8EncodeChar c ++ r) = (c.toNat, r) := by
  simp only [utf8EncodeChar]
  split_ifs with h1 h2 h3 <;>
    simp only [List.cons_append, List.nil_append, readFirst]
  · rw [if_pos h1]
  · rw [if_neg (by omega), if_pos (by omega)]
    congr 1
    omega
  · rw [if_neg (by omega), if_neg (by omega), if_pos (by omega)]
    congr 1
    omega
  · rw [if_neg (by omega), if_neg (by omega), if_neg (by omega)]
    congr 1
    omega

/-- The character-level UTF-8 encoding is injective even in the presence of
arbitrary continuations. -/
theorem utf8EncodeChar_append_inj (c1 c2 : Char) (r1 r2 : List Nat)
    (h : utf8EncodeChar c1 ++ r1 = utf8EncodeChar c2 ++ r2) :
    c1 = c2 ∧ r1 = r2 := by
  have h1 := readFirst_utf8EncodeChar c1 r1
  have h2 := readFirst_utf8EncodeChar c2 r2
  rw [h, h2] at h1
  obtain ⟨hv, hr⟩ := Prod.mk.injEq .. ▸ h1
  exact ⟨char_toNat_inj c1 c2 hv.symm, hr.symm⟩

/-- The UTF-8 byte view of a text determines the text: byte-for-byte equal
texts are equal character lists. -/
theorem utf8Bytes_inj (l1 l2 : List Char) (h : utf8Bytes l1 = utf8Bytes l2) :
    l1 = l2 := by
  induction l1 generalizing l2 with
  | nil =>
    cases l2 with
    | nil => rfl
    | cons d ds =>
      exfalso
      simp only [utf8Bytes] at h
      exact utf8EncodeChar_ne_nil d (List.append_eq_nil.mp h.symm).1
  | cons c cs ih =>
    cases l2 with
    | nil =>
      exfalso
      simp only [utf8Bytes] at h
      exact utf8EncodeChar_ne_nil c (List.append_eq_nil.mp h).1
    | cons d ds =>
      simp only [utf8Bytes] at h
      obtain ⟨hc, hr⟩ := utf8EncodeChar_append_inj c d _ _ h
      rw [hc, ih ds hr]

/-- Head unfolding of the byte-lexicographic comparison. -/
theorem bytesLt_cons_iff (a b : Nat) (as bs : List Nat) :
    bytesLt (a :: as) (b :: bs) = true ↔
      a < b ∨ (a = b ∧ bytesLt as bs = true) := by
  simp only [bytesLt]
  split_ifs with h1 h2
  · simp [h1]
  · constructor
    · intro h
      exact absurd h (by simp)
    · intro h
      rcases h with h | ⟨he, _⟩ <;> omega
  · constructor
    · intro h
      exact Or.inr ⟨by omega, h⟩
    · intro h
      rcases h with h | ⟨_, h⟩
      · omega
      · exact h

/-- Byte-lexicographic comparison is transitive. -/
theorem bytesLt_trans : ∀ x y z : List Nat,
    bytesLt x y = true → bytesLt y z = true → bytesLt x z = true := by
  intro x
  induction x with
  | nil =>
    intro y z h1 h2
    cases z with
    | nil =>
      cases y with
      | nil => exact h2
      | cons b bs => simp [bytesLt] at h2
    | cons c cs => simp [bytesLt]
  | cons a as ih =>
    intro y z h1 h2
    cases y with
    | nil => simp [bytesLt] at h1
    | cons b bs =>
      cases z with
      | nil => simp [bytesLt] at h2
      | cons c cs =>
        rw [bytesLt_cons_iff] at h1 h2 ⊢
        rcases h1 with h1 | ⟨e1, h1⟩ <;> rcases h2 with h2 | ⟨e2, h2⟩
        · exact Or.inl (by omega)
        · exact Or.inl (by omega)
        · exact Or.inl (by omega)
        · exact Or.inr ⟨by omega, ih bs cs h1 h2⟩

/-- Byte-lexicographic comparison is total: any two byte lists are ordered
or equal. -/
theorem bytesLt_total : ∀ x y : List Nat,
    bytesLt x y = true ∨ x = y ∨ bytesLt y x = true := by
  intro x
  induction x with
  | nil =>
    intro y
    cases y with
    | nil => exact Or.inr (Or.inl rfl)
    | cons b bs => exact Or.inl (by simp [bytesLt])
  | cons a as ih =>
    intro y
    cases y with
    | nil => exact Or.inr (Or.inr (by simp [bytesLt]))
    | cons b bs =>
      rcases Nat.lt_trichotomy a b with h | h | h
      · exact Or.inl ((bytesLt_cons_iff ..).mpr (Or.inl h))
      · rcases ih bs with h2 | h2 | h2
        · exact Or.inl ((bytesLt_cons_iff ..).mpr (Or.inr ⟨h, h2⟩))
        · exact Or.inr (Or.inl (by rw [h, h2]))
        · exact Or.inr (Or.inr ((bytesLt_cons_iff ..).mpr (Or.inr ⟨h.symm, h2⟩)))
      · exact Or.inr (Or.inr ((bytesLt_cons_iff ..).mpr (Or.inl h)))

/-- Searching for a one-character needle is character membership. -/
theorem containsSub_single_iff (c : Char) (s : List Char) :
    containsSub [c] s = true ↔ c ∈ s := by
  induction s with
  | nil => simp [containsSub, leadsWith]
  | cons h t ih =>
    simp only [containsSub, Bool.or_eq_true, ih, List.mem_cons]
    have hlw : leadsWith [c] (h :: t) = true ↔ c = h := by
      simp only [leadsWith]
      split_ifs with he
      · simp [he]
      · simp [he]
    rw [hlw]

/-- When both validation conditions hold, `TraderId::new` succeeds with the
handle of the input text. -/
theorem new_ok_of (s : List Char)
    (h1 : (s.isEmpty || s.all isRustWhitespace) = false)
    (h2 : containsSub ['-'] s = true) :
    TraderId.new s = .ok ⟨Ustr.fromText s⟩ := by
  simp [TraderId.new, valid_string, string_contains, h1, h2]

/-- When the empty/whitespace check fails, `TraderId::new` returns its
`InvalidValue` with the empty/whitespace reason (the separator check is
never consulted). -/
theorem new_error_empty (s : List Char)
    (h1 : (s.isEmpty || s.all isRustWhitespace) = true) :
    TraderId.new s = .error ⟨traderFieldName, .emptyOrWhitespace⟩ := by
  simp [TraderId.new, valid_string, h1]

/-- When the empty/whitespace check passes but the separator is missing,
`TraderId::new` returns the missing-substring `InvalidValue`. -/
theorem new_error_missing (s : List Char)
    (h1 : (s.isEmpty || s.all isRustWhitespace) = false)
    (h2 : containsSub ['-'] s = false) :
    TraderId.new s =
      .error ⟨traderFieldName, .missingSubstring ['-']⟩ := by
  simp [TraderId.new, valid_string, string_contains, h1, h2]

/-- A successful `TraderId::new` wraps exactly the input text, and both
validation conditions held. -/
theorem new_ok_text (s : List Char) (id : TraderId)
    (h : TraderId.new s = .ok id) :
    id.value.text = s ∧ (s.isEmpty || s.all isRustWhitespace) = false ∧
      containsSub ['-'] s = true := by
  by_cases h1 : (s.isEmpty || s.all isRustWhitespace) = true
  · rw [new_error_empty s h1] at h
    exact absurd h (by simp)
  · have h1' : (s.isEmpty || s.all isRustWhitespace) = false := by
      simpa using h1
    by_cases h2 : containsSub ['-'] s = true
    · rw [new_ok_of s h1' h2] at h
      injection h with h3
      subst h3
      exact ⟨rfl, h1', h2⟩
    · have h2' : containsSub ['-'] s = false := by simpa using h2
      rw [new_error_missing s h1' h2'] at h
      exact absurd h (by simp)

/-- Interning always returns the handle determined by the interned text. -/
theorem intern_fst (st : InternStore) (s : List Char) :
    (st.intern s).1 = Ustr.fromText s := by
  unfold InternStore.intern
  split_ifs <;> rfl

/-- Identifiers with equal byte views of their texts are equal. -/
theorem traderId_bytes_inj (a b : TraderId) (h : a.bytes = b.bytes) :
    a = b := by
  cases a with
  | mk ua =>
    cases b with
    | mk ub =>
      cases ua
      cases ub
      simp only [TraderId.bytes] at h
      rw [utf8Bytes_inj _ _ h]

/-- C1: equality, hashing and ordering of `TraderId` are mutually consistent
and all derived from the underlying interned text: two identifiers are equal
iff their texts are byte-for-byte equal; equal identifiers have equal
`trader_id_hash` values; and the ordering is byte-lexicographic comparison
of the text, transitive, and total. -/
theorem traderId_eq_hash_ord_consistent :
    (∀ a b : TraderId, a = b ↔ a.bytes = b.bytes) ∧
    (∀ a b : TraderId, a = b → trader_id_hash a = trader_id_hash b) ∧
    (∀ a b c : TraderId,
      TraderId.lt a b = true → TraderId.lt b c = true →
        TraderId.lt a c = true) ∧
    (∀ a b : TraderId,
      TraderId.lt a b = true ∨ a = b ∨ TraderId.lt b a = true) := by
  refine ⟨?_, ?_, ?_, ?_⟩
  · intro a b
    constructor
    · intro h
      rw [h]
    · exact traderId_bytes_inj a b
  · intro a b h
    rw [h]
  · intro a b c h1 h2
    exact bytesLt_trans _ _ _ h1 h2
  · intro a b
    rcases bytesLt_total a.bytes b.bytes with h | h | h
    · exact Or.inl h
    · exact Or.inr (Or.inl (traderId_bytes_inj a b h))
    · exact Or.inr (Or.inr h)

/-- Witness for C1 at concrete identifiers: the equality criterion at
`tid000`, and transitivity applied to `tid000 < tid001 < tid002`. -/
theorem traderId_eq_hash_ord_consistent_witness :
    (tid000 = tid000 ↔ tid000.bytes = tid000.bytes) ∧
      TraderId.lt tid000 tid002 = true :=
  ⟨traderId_eq_hash_ord_consistent.1 tid000 tid000,
    traderId_eq_hash_ord_consistent.2.2.1 tid000 tid001 tid002 (by decide)
      (by decide)⟩

/-- C2: every identifier obtained from the public constructors (a successful
`TraderId::new`, or `TraderId::default`) has text that is non-empty, not
all-whitespace, and contains a literal hyphen (invariants I1 and I2). -/
theorem traderId_invariants :
    (∀ (s : List Char) (id : TraderId), TraderId.new s = .ok id →
      id.value.text ≠ [] ∧ id.value.text.all isRustWhitespace = false ∧
        '-' ∈ id.value.text) ∧
    (TraderId.default.value.text ≠ [] ∧
      TraderId.default.value.text.all isRustWhitespace = false ∧
      '-' ∈ TraderId.default.value.text) := by
  constructor
  · intro s id h
    obtain ⟨ht, h1, h2⟩ := new_ok_text s id h
    subst ht
    refine ⟨?_, ?_, (containsSub_single_iff _ _).mp h2⟩
    · intro he
      rw [he] at h1
      simp at h1
    · by_contra hall
      simp only [Bool.not_eq_false] at hall
      rw [hall] at h1
      simp at h1
  · exact ⟨by decide, by decide, by decide⟩

/-- Witness for C2: the invariants hold of the identifier built from
`"TRADER-001"`. -/
theorem traderId_invariants_witness :
    tid001.value.text ≠ [] ∧
      tid001.value.text.all isRustWhitespace = false ∧
      '-' ∈ tid001.value.text :=
  traderId_invariants.1 (("TRADER-001").toList) tid001 rfl

/-- C3: for every non-empty string that contains a hyphen and is not
all-whitespace, `TraderId::new` succeeds and the `Display` rendering is
exactly the input, with no quoting, escaping, truncation or normalization. -/
theorem new_valid_roundtrip (s : List Char) (h1 : s ≠ [])
    (h2 : s.all isRustWhitespace = false) (h3 : '-' ∈ s) :
    ∃ id, TraderId.new s = .ok id ∧ id.display = s := by
  have hne : s.isEmpty = false := by
    cases s with
    | nil => exact absurd rfl h1
    | cons c cs => rfl
  have hc : containsSub ['-'] s = true := (containsSub_single_iff _ _).mpr h3
  exact ⟨⟨Ustr.fromText s⟩, new_ok_of s (by rw [hne, h2]; rfl) hc, rfl⟩

/-- Witness for C3: the roundtrip at the concrete input `"TRADER-001"`. -/
theorem new_valid_roundtrip_witness :
    ∃ id, TraderId.new (("TRADER-001").toList) = .ok id ∧
      id.display = ("TRADER-001").toList :=
  new_valid_roundtrip (("TRADER-001").toList) (by decide) (by decide)
    (by decide)

/-- C4: every empty, all-whitespace, or hyphen-free string is rejected by
`TraderId::new` with an `InvalidValue`, and the empty string fails with the
empty/whitespace reason, not the missing-separator reason, because the
empty/whitespace check runs first. -/
theorem new_invalid_rejected :
    (∀ s : List Char,
      s = [] ∨ s.all isRustWhitespace = true ∨ '-' ∉ s →
        ∃ e, TraderId.new s = .error e) ∧
    TraderId.new [] = .error ⟨traderFieldName, .emptyOrWhitespace⟩ := by
  constructor
  · intro s hs
    by_cases h1 : (s.isEmpty || s.all isRustWhitespace) = true
    · exact ⟨_, new_error_empty s h1⟩
    · have h1' : (s.isEmpty || s.all isRustWhitespace) = false := by
        simpa using h1
      rcases hs with h | h | h
      · subst h
        simp at h1'
      · rw [h] at h1'
        simp at h1'
      · refine ⟨_, new_error_missing s h1' ?_⟩
        by_contra hc
        simp only [Bool.not_eq_false] at hc
        exact h ((containsSub_single_iff _ _).mp hc)
  · exact new_error_empty [] (by decide)

/-- Witness for C4: the hyphen-free input `"TRADER001"` is rejected. -/
theorem new_invalid_rejected_witness :
    ∃ e, TraderId.new (("TRADER001").toList) = .error e :=
  new_invalid_rejected.1 (("TRADER001").toList)
    (Or.inr (Or.inr (by decide)))

/-- C5: `TraderId::new` is atomic with respect to the Interning Store: on a
validation failure it returns exactly that failure and the store is never
consulted or extended; only after both checks succeed does it intern the
text, and the resulting identifier and store are those of a single intern
call. -/
theorem new_atomic_interning :
    (∀ (s : List Char) (st : InternStore) (e : InvalidValue),
      TraderId.new s = .error e →
        TraderId.newWithStore s st = .error e) ∧
    (∀ (s : List Char) (st : InternStore) (id : TraderId),
      TraderId.new s = .ok id →
        TraderId.newWithStore s st = .ok (id, (st.intern s).2)) := by
  constructor
  · intro s st e h
    unfold TraderId.new at h
    unfold TraderId.newWithStore
    cases hv : valid_string s traderFieldName with
    | error e1 =>
      rw [hv] at h
      have h4 : (Except.error e1 : Except InvalidValue TraderId) =
        Except.error e := h
      injection h4 with h3
      show (Except.error e1 :
        Except InvalidValue (TraderId × InternStore)) = Except.error e
      rw [h3]
    | ok u =>
      rw [hv] at h
      cases hc : string_contains s ['-'] traderFieldName with
      | error e2 =>
        rw [hc] at h
        have h4 : (Except.error e2 : Except InvalidValue TraderId) =
          Except.error e := h
        injection h4 with h3
        show (Except.error e2 :
          Except InvalidValue (TraderId × InternStore)) = Except.error e
        rw [h3]
      | ok u2 =>
        rw [hc] at h
        simp at h
  · intro s st id h
    unfold TraderId.new at h
    unfold TraderId.newWithStore
    cases hv : valid_string s traderFieldName with
    | error e1 =>
      rw [hv] at h
      simp at h
    | ok u =>
      rw [hv] at h
      cases hc : string_contains s ['-'] traderFieldName with
      | error e2 =>
        rw [hc] at h
        simp at h
      | ok u2 =>
        rw [hc] at h
        injection h with h3
        subst h3
        show Except.ok (TraderId.mk (st.intern s).1, (st.intern s).2) =
          Except.ok (TraderId.mk (Ustr.fromText s), (st.intern s).2)
        rw [intern_fst]

/-- Witness for C5: the failing input `""` yields the same error with the
store made explicit, and the valid input `"TRADER-001"` interns into the
empty store. -/
theorem new_atomic_interning_witness :
    TraderId.newWithStore [] ⟨[]⟩ =
        .error ⟨traderFieldName, .emptyOrWhitespace⟩ ∧
      TraderId.newWithStore (("TRADER-001").toList) ⟨[]⟩ =
        .ok (tid001, (InternStore.intern ⟨[]⟩ (("TRADER-001").toList)).2) :=
  ⟨new_atomic_interning.1 [] ⟨[]⟩ _ rfl,
    new_atomic_interning.2 (("TRADER-001").toList) ⟨[]⟩ tid001 rfl⟩

/-- C6: `TraderId::default` is the identifier with the fixed text
`"TRADER-000"`, constructed directly without running validation, and it
equals the result of `TraderId::new("TRADER-000")`. -/
theorem default_eq_new_trader000 :
    TraderId.default.value.text = ("TRADER-000").toList ∧
      TraderId.new (("TRADER-000").toList) = .ok TraderId.default :=
  ⟨rfl, rfl⟩

/-- C7: the raw-pointer entry point refines the safe constructor: whenever
`TraderId::new` succeeds on a text, `trader_id_new` on a buffer holding that
text returns the identical identifier. -/
theorem trader_id_new_refines_new (s : List Char) (id : TraderId)
    (h : TraderId.new s = .ok id) :
    trader_id_new (.utf8 s) = .ret id := by
  show (match TraderId.new s with
    | .ok id => FfiOutcome.ret id
    | .error _ => FfiOutcome.abort) = .ret id
  rw [h]

/-- Witness for C7: both entry points agree at the input `"TRADER-001"`. -/
theorem trader_id_new_refines_new_witness :
    trader_id_new (.utf8 (("TRADER-001").toList)) = .ret tid001 :=
  trader_id_new_refines_new (("TRADER-001").toList) tid001 rfl

/-- C8: the raw-pointer entry point never returns an error value: a null
pointer, a non-UTF-8 buffer, or a text failing validation all abort the
process instead of returning. -/
theorem trader_id_new_aborts :
    trader_id_new .nullPtr = .abort ∧
    trader_id_new .invalidUtf8 = .abort ∧
    (∀ (s : List Char) (e : InvalidValue), TraderId.new s = .error e →
      trader_id_new (.utf8 s) = .abort) := by
  refine ⟨rfl, rfl, ?_⟩
  intro s e h
  show (match TraderId.new s with
    | .ok id => FfiOutcome.ret id
    | .error _ => FfiOutcome.abort) = .abort
  rw [h]

/-- Witness for C8: the empty buffer aborts. -/
theorem trader_id_new_aborts_witness :
    trader_id_new (.utf8 []) = .abort :=
  trader_id_new_aborts.2.2 [] ⟨traderFieldName, .emptyOrWhitespace⟩ rfl

/-- C9: the debug render of every identifier is the plain display form
enclosed in double quotes; in particular `new("TRADER-001")` succeeds,
displays as `TRADER-001`, and debug-renders with surrounding quotes. -/
theorem debug_render_quoted :
    (∀ id : TraderId, id.debugRender = '"' :: id.display ++ ['"']) ∧
    (∃ id, TraderId.new (("TRADER-001").toList) = .ok id ∧
      id.display = ("TRADER-001").toList ∧
      id.debugRender = '"' :: ("TRADER-001").toList ++ ['"']) := by
  constructor
  · intro id
    rfl
  · exact ⟨⟨Ustr.fromText (("TRADER-001").toList)⟩, rfl, rfl, rfl⟩

/-- C10: `TraderId::new` is total over all inputs and every failure takes
the recoverable `InvalidValue` branch: for every string the result is the
success on that text, the empty/whitespace error, or the missing-separator
error — never anything else. -/
theorem new_total_recoverable (s : List Char) :
    TraderId.new s = .ok ⟨Ustr.fromText s⟩ ∨
    TraderId.new s = .error ⟨traderFieldName, .emptyOrWhitespace⟩ ∨
    TraderId.new s =
      .error ⟨traderFieldName, .missingSubstring ['-']⟩ := by
  by_cases h1 : (s.isEmpty || s.all isRustWhitespace) = true
  · exact Or.inr (Or.inl (new_error_empty s h1))
  · have h1' : (s.isEmpty || s.all isRustWhitespace) = false := by
      simpa using h1
    by_cases h2 : containsSub ['-'] s = true
    · exact Or.inl (new_ok_of s h1' h2)
    · exact Or.inr (Or.inr (new_error_missing s h1' (by simpa using h2)))
